import Mathlib

/-!
Shallow embedding of the `newtype-macros` storage-binding layer.

The source (src/lib.rs) generates, per declared newtype, byte codecs
(`to_owned_bytes` / `from_owned_bytes`), storage keys (singleton `KEY`,
map `KEY_PREFIX` plus `map_key`), and capability operations
(`load`/`save`, `clear`, `load_always`, and their `_at` map variants)
over an abstract byte-oriented storage port
(`ReadonlyStorage::get`, `MutableStorage::set`/`clear`).

Bytes are modelled as `List Nat`, Rust `String` values as `List Char`
(Unicode scalar values, exactly Rust's `char`), panics (`expect`) as
`Except String`, and the storage port as a function from keys to
optional byte values.
-/

namespace NewtypeMacros

/-! ## Big-endian integer bytes (`u{N}::to_be_bytes` / `from_be_bytes`) -/

/-- `n.to_be_bytes()` for a `w`-byte unsigned integer: `w` bytes, most
significant first. -/
def toBEBytes : Nat → Nat → List Nat
  | 0, _ => []
  | w + 1, n => toBEBytes w (n / 256) ++ [n % 256]

/-- `from_be_bytes`: big-endian bytes back to the integer. -/
def fromBEBytes (bs : List Nat) : Nat :=
  bs.foldl (fun a b => 256 * a + b) 0

theorem toBEBytes_length (w n : Nat) : (toBEBytes w n).length = w := by
  induction w generalizing n with
  | zero => rfl
  | succ w ih => simp [toBEBytes, ih]

theorem foldl_toBEBytes (w : Nat) :
    ∀ n a, n < 256 ^ w →
      (toBEBytes w n).foldl (fun a b => 256 * a + b) a = a * 256 ^ w + n := by
  induction w with
  | zero =>
    intro n a h
    interval_cases n
    simp [toBEBytes]
  | succ w ih =>
    intro n a h
    have hdiv : n / 256 < 256 ^ w := by
      have : n < 256 ^ w * 256 := by
        calc n < 256 ^ (w + 1) := h
        _ = 256 ^ w * 256 := by ring
      omega
    simp only [toBEBytes, List.foldl_append, List.foldl_cons, List.foldl_nil]
    rw [ih (n / 256) a hdiv]
    have hmod : n % 256 < 256 := Nat.mod_lt _ (by omega)
    have : 256 * (a * 256 ^ w + n / 256) + n % 256
        = a * 256 ^ (w + 1) + (256 * (n / 256) + n % 256) := by ring
    rw [this, Nat.div_add_mod]

theorem fromBEBytes_toBEBytes (w n : Nat) (h : n < 256 ^ w) :
    fromBEBytes (toBEBytes w n) = n := by
  have := foldl_toBEBytes w n 0 h
  simpa [fromBEBytes] using this

/-! ## Decimal text encoding (`u{N}::to_string`, ASCII bytes)

Map-key components are encoded with Rust's `to_string` (canonical
decimal); the resulting key is consumed via `.as_bytes()`.  We model the
decimal encoding directly at the byte level: ASCII digit bytes
(`48 + d`), most significant first, `"0"` for zero. -/

/-- Digits of a positive number as ASCII bytes (empty for 0). -/
def decDigits : Nat → List Nat
  | 0 => []
  | n + 1 => decDigits ((n + 1) / 10) ++ [48 + (n + 1) % 10]
decreasing_by exact Nat.div_lt_self (Nat.succ_pos _) (by omega)

/-- `n.to_string().as_bytes()` for an unsigned integer `n`. -/
def natDecimal (n : Nat) : List Nat :=
  if n = 0 then [48] else decDigits n

theorem foldl_decDigits (n : Nat) :
    ∀ a, (decDigits n).foldl (fun x d => 10 * x + (d - 48)) a
      = a * 10 ^ (decDigits n).length + n := by
  induction n using Nat.strong_induction_on with
  | _ n ih =>
    match n with
    | 0 => intro a; simp [decDigits]
    | n + 1 =>
      intro a
      have hlt : (n + 1) / 10 < n + 1 := Nat.div_lt_self (Nat.succ_pos _) (by omega)
      rw [decDigits]
      simp only [List.foldl_append, List.foldl_cons, List.foldl_nil, List.length_append,
        List.length_cons, List.length_nil]
      rw [ih _ hlt a]
      have h48 : 48 + (n + 1) % 10 - 48 = (n + 1) % 10 := by omega
      rw [h48]
      have hmod := Nat.div_add_mod (n + 1) 10
      have : 10 * (a * 10 ^ (decDigits ((n + 1) / 10)).length + (n + 1) / 10)
            + (n + 1) % 10
          = a * (10 ^ (decDigits ((n + 1) / 10)).length * 10)
            + (10 * ((n + 1) / 10) + (n + 1) % 10) := by ring
      rw [this, hmod, pow_succ]

/-- Every byte of `decDigits` is an ASCII digit. -/
theorem decDigits_mem (n : Nat) : ∀ b ∈ decDigits n, 48 ≤ b ∧ b ≤ 57 := by
  induction n using Nat.strong_induction_on with
  | _ n ih =>
    match n with
    | 0 => intro b hb; simp [decDigits] at hb
    | n + 1 =>
      intro b hb
      have hlt : (n + 1) / 10 < n + 1 := Nat.div_lt_self (Nat.succ_pos _) (by omega)
      rw [decDigits] at hb
      rcases List.mem_append.mp hb with h | h
      · exact ih _ hlt b h
      · have := List.mem_singleton.mp h
        have hm : (n + 1) % 10 < 10 := Nat.mod_lt _ (by omega)
        omega

/-- Every byte of a decimal encoding is an ASCII digit (in particular,
never the `:` separator, byte 58). -/
theorem natDecimal_mem (n : Nat) : ∀ b ∈ natDecimal n, 48 ≤ b ∧ b ≤ 57 := by
  intro b hb
  by_cases h : n = 0
  · simp [natDecimal, h] at hb
    omega
  · rw [natDecimal, if_neg h] at hb
    exact decDigits_mem n b hb

/-- Decimal encoding is injective: `to_string` distinguishes values. -/
theorem natDecimal_inj {n m : Nat} (h : natDecimal n = natDecimal m) : n = m := by
  have key : ∀ k, (natDecimal k).foldl (fun x d => 10 * x + (d - 48)) 0 = k := by
    intro k
    by_cases hk : k = 0
    · simp [natDecimal, hk]
    · rw [natDecimal, if_neg hk, foldl_decDigits]
      ring
  have := key n
  rw [h, key m] at this
  omega

/-! ## UTF-8 (`String::as_bytes` / `String::from_utf8`)

Rust `String` values are modelled as their sequence of Unicode scalar
values (`List Char`; Lean's `Char` is exactly a Unicode scalar value,
like Rust's `char`).  `as_bytes` is UTF-8 encoding; `String::from_utf8`
is the validating decoder. -/

/-- UTF-8 encoding of one Unicode scalar value. -/
def utf8EncodeChar (c : Char) : List Nat :=
  let n := c.toNat
  if n < 128 then [n]
  else if n < 2048 then [192 + n / 64, 128 + n % 64]
  else if n < 65536 then [224 + n / 4096, 128 + n / 64 % 64, 128 + n % 64]
  else [240 + n / 262144, 128 + n / 4096 % 64, 128 + n / 64 % 64, 128 + n % 64]

/-- `String::as_bytes` on a string modelled as its scalar values. -/
def utf8Encode (cs : List Char) : List Nat :=
  (cs.map utf8EncodeChar).flatten

/-- Byte view of a string literal (used for key constants). -/
def strBytes (s : String) : List Nat := utf8Encode s.data

/-- One step of `String::from_utf8` validation/decoding: given the first
byte `b0` and the remaining input, the first scalar value and the bytes
left over.  Rejects stray or missing continuation bytes, overlong forms,
surrogates, and values beyond U+10FFFF. -/
def utf8DecodeStep (b0 : Nat) (rest : List Nat) : Option (Char × List Nat) :=
  if b0 < 128 then some (Char.ofNat b0, rest)
  else if b0 < 192 then none
  else if b0 < 224 then
    if 1 ≤ rest.length then
      if 128 ≤ rest.getD 0 0 ∧ rest.getD 0 0 < 192 then
        if 128 ≤ (b0 - 192) * 64 + (rest.getD 0 0 - 128) then
          some (Char.ofNat ((b0 - 192) * 64 + (rest.getD 0 0 - 128)), rest.drop 1)
        else none
      else none
    else none
  else if b0 < 240 then
    if 2 ≤ rest.length then
      if (128 ≤ rest.getD 0 0 ∧ rest.getD 0 0 < 192)
          ∧ (128 ≤ rest.getD 1 0 ∧ rest.getD 1 0 < 192) then
        if 2048 ≤ (b0 - 224) * 4096 + (rest.getD 0 0 - 128) * 64 + (rest.getD 1 0 - 128)
            ∧ ((b0 - 224) * 4096 + (rest.getD 0 0 - 128) * 64 + (rest.getD 1 0 - 128) < 55296
               ∨ 57344 ≤ (b0 - 224) * 4096 + (rest.getD 0 0 - 128) * 64 + (rest.getD 1 0 - 128)) then
          some (Char.ofNat ((b0 - 224) * 4096 + (rest.getD 0 0 - 128) * 64 + (rest.getD 1 0 - 128)),
            rest.drop 2)
        else none
      else none
    else none
  else if b0 < 248 then
    if 3 ≤ rest.length then
      if (128 ≤ rest.getD 0 0 ∧ rest.getD 0 0 < 192)
          ∧ (128 ≤ rest.getD 1 0 ∧ rest.getD 1 0 < 192)
          ∧ (128 ≤ rest.getD 2 0 ∧ rest.getD 2 0 < 192) then
        if 65536 ≤ (b0 - 240) * 262144 + (rest.getD 0 0 - 128) * 4096
              + (rest.getD 1 0 - 128) * 64 + (rest.getD 2 0 - 128)
            ∧ (b0 - 240) * 262144 + (rest.getD 0 0 - 128) * 4096
              + (rest.getD 1 0 - 128) * 64 + (rest.getD 2 0 - 128) < 1114112 then
          some (Char.ofNat ((b0 - 240) * 262144 + (rest.getD 0 0 - 128) * 4096
            + (rest.getD 1 0 - 128) * 64 + (rest.getD 2 0 - 128)), rest.drop 3)
        else none
      else none
    else none
  else none

/-- A decoding step never lengthens the remaining input. -/
theorem utf8DecodeStep_length {b0 : Nat} {rest : List Nat} {p : Char × List Nat}
    (h : utf8DecodeStep b0 rest = some p) : p.2.length ≤ rest.length := by
  rw [utf8DecodeStep] at h
  set_option maxRecDepth 2000 in
  split_ifs at h
  all_goals (cases h; simp)

/-- `String::from_utf8`: validating UTF-8 decoder, modelled as repeated
`utf8DecodeStep`; returns the scalar values on success. -/
def utf8Decode : List Nat → Option (List Char)
  | [] => some []
  | b0 :: rest =>
    if h : (utf8DecodeStep b0 rest).isSome then
      let p := (utf8DecodeStep b0 rest).get h
      (utf8Decode p.2).map (fun cs => p.1 :: cs)
    else none
termination_by l => l.length
decreasing_by
  simp_wf
  have := utf8DecodeStep_length (Option.some_get h).symm
  omega

theorem utf8Decode_nil : utf8Decode [] = some [] := by
  rw [utf8Decode]

/-- Unfolding the decoder on a successful first step. -/
theorem utf8Decode_cons_some {b0 : Nat} {rest r : List Nat} {c : Char}
    (h : utf8DecodeStep b0 rest = some (c, r)) :
    utf8Decode (b0 :: rest) = (utf8Decode r).map (fun cs => c :: cs) := by
  rw [utf8Decode]
  have hs : (utf8DecodeStep b0 rest).isSome := by rw [h]; rfl
  rw [dif_pos hs]
  simp only [h, Option.get_some]

/-- Decoding an encoded scalar value at the front of a byte stream peels
off exactly that character. -/
theorem utf8Decode_encodeChar (c : Char) (rest : List Nat) :
    utf8Decode (utf8EncodeChar c ++ rest)
      = (utf8Decode rest).map (fun cs => c :: cs) := by
  have hval : c.toNat < 55296 ∨ (57344 ≤ c.toNat ∧ c.toNat < 1114112) := by
    have h := c.valid
    simpa [UInt32.isValidChar, Nat.isValidChar, Char.toNat] using h
  have hofn : Char.ofNat c.toNat = c := Char.ofNat_toNat c
  by_cases h1 : c.toNat < 128
  · rw [utf8EncodeChar]
    simp only [if_pos h1, List.cons_append, List.nil_append]
    rw [utf8Decode_cons_some (c := c) (r := rest) ?step]
    case step =>
      rw [utf8DecodeStep, if_pos h1, hofn]
  · by_cases h2 : c.toNat < 2048
    · rw [utf8EncodeChar]
      simp only [if_neg h1, if_pos h2, List.cons_append, List.nil_append]
      rw [utf8Decode_cons_some (c := c) (r := rest) ?step]
      case step =>
        rw [utf8DecodeStep, if_neg (by omega), if_neg (by omega), if_pos (by omega)]
        rw [if_pos (by simp), if_pos (by simp; omega)]
        rw [if_pos (by simp; omega)]
        simp only [List.getD_cons_zero, List.drop_one, List.tail_cons]
        have he : (192 + c.toNat / 64 - 192) * 64 + (128 + c.toNat % 64 - 128)
            = c.toNat := by omega
        rw [he, hofn]
    · by_cases h3 : c.toNat < 65536
      · rw [utf8EncodeChar]
        simp only [if_neg h1, if_neg h2, if_pos h3, List.cons_append, List.nil_append]
        rw [utf8Decode_cons_some (c := c) (r := rest) ?step]
        case step =>
          rw [utf8DecodeStep, if_neg (by omega), if_neg (by omega), if_neg (by omega),
            if_pos (by omega)]
          rw [if_pos (by simp), if_pos (by simp; omega), if_pos (by simp; omega)]
          simp only [List.getD_cons_zero, List.getD_cons_succ]
          have he : (224 + c.toNat / 4096 - 224) * 4096
              + (128 + c.toNat / 64 % 64 - 128) * 64 + (128 + c.toNat % 64 - 128)
              = c.toNat := by omega
          simp only [List.drop_succ_cons, List.drop_zero]
          rw [he, hofn]
      · rw [utf8EncodeChar]
        simp only [if_neg h1, if_neg h2, if_neg h3, List.cons_append, List.nil_append]
        rw [utf8Decode_cons_some (c := c) (r := rest) ?step]
        case step =>
          rw [utf8DecodeStep, if_neg (by omega), if_neg (by omega), if_neg (by omega),
            if_neg (by omega), if_pos (by omega)]
          rw [if_pos (by simp), if_pos (by simp; omega), if_pos (by simp; omega)]
          simp only [List.getD_cons_zero, List.getD_cons_succ]
          have he : (240 + c.toNat / 262144 - 240) * 262144
              + (128 + c.toNat / 4096 % 64 - 128) * 4096
              + (128 + c.toNat / 64 % 64 - 128) * 64 + (128 + c.toNat % 64 - 128)
              = c.toNat := by omega
          simp only [List.drop_succ_cons, List.drop_zero]
          rw [he, hofn]

/-- UTF-8 round trip on whole strings. -/
theorem utf8Decode_utf8Encode (cs : List Char) :
    utf8Decode (utf8Encode cs) = some cs := by
  induction cs with
  | nil => simpa [utf8Encode] using utf8Decode_nil
  | cons c cs ih =>
    rw [utf8Encode, List.map_cons, List.flatten_cons]
    rw [show (cs.map utf8EncodeChar).flatten = utf8Encode cs from rfl]
    rw [utf8Decode_encodeChar, ih]
    rfl

/-! ## Storage port (`ReadonlyStorage::get`, `MutableStorage::set`/`clear`)

The port is modelled as a map from byte keys to optionally present byte
values.  `set` and `clear` are the canonical point updates, satisfying
the consumed contract (`get` after `set` sees the new bytes; `clear` is
idempotent on absent keys). -/

def Storage : Type := List Nat → Option (List Nat)

/-- `ReadonlyStorage::get`. -/
def storageGet (s : Storage) (key : List Nat) : Option (List Nat) := s key

/-- `MutableStorage::set`. -/
def storageSet (s : Storage) (key value : List Nat) : Storage :=
  fun k => if k = key then some value else s k

/-- `MutableStorage::clear`. -/
def storageClear (s : Storage) (key : List Nat) : Storage :=
  fun k => if k = key then none else s k

/-- The storage with no bytes stored anywhere. -/
def emptyStorage : Storage := fun _ => none

/-! ## Byte codecs of the newtype kinds

Each generated newtype has `to_owned_bytes` / `from_owned_bytes`.
Fallible decoding (`expect` in the source, i.e. a panic on
internal-consistency violation) is modelled as `Except String` carrying
the source's `expect` message. -/

/-- A newtype kind's byte codec. -/
structure Codec (α : Type) where
  toBytes : α → List Nat
  fromBytes : List Nat → Except String α

/-- `UintNewtypeImpl::from_owned_bytes`: `TryFrom` into a `w`-byte array
(panics on length mismatch), then `from_be_bytes`. -/
def uintFromBytes (w : Nat) (bs : List Nat) : Except String Nat :=
  if bs.length = w then .ok (fromBEBytes bs)
  else .error "always stored correct amount of bytes"

/-- Codec of a `w`-byte uint newtype (`to_owned_bytes` is
`to_be_bytes().to_vec()`). -/
def uintCodec (w : Nat) : Codec Nat :=
  ⟨fun v => toBEBytes w v, uintFromBytes w⟩

/-- A non-zero integer value (Rust `NonZeroU{N}`). -/
def NonZeroVal : Type := {n : Nat // n ≠ 0}

/-- `NonZeroU{N}::new`: `none` exactly on zero. -/
def nonZeroNew (t : Nat) : Option NonZeroVal :=
  if h : t = 0 then none else some ⟨t, h⟩

/-- `NonZeroNewtypeImpl::from_owned_bytes`: length-checked `TryFrom`
(panics on mismatch), `from_be_bytes`, then `NonZero::new` with a panic
on zero. -/
def nonZeroFromBytes (w : Nat) (bs : List Nat) : Except String NonZeroVal :=
  if bs.length = w then
    match nonZeroNew (fromBEBytes bs) with
    | some nz => .ok nz
    | none => .error "saved primative > 0"
  else .error "always stored correct amount of bytes"

/-- Codec of a `w`-byte non-zero uint newtype (`to_owned_bytes` is
`self.0.get().to_be_bytes().to_vec()`). -/
def nonZeroCodec (w : Nat) : Codec NonZeroVal :=
  ⟨fun v => toBEBytes w v.val, nonZeroFromBytes w⟩

/-- `StringNewtypeImpl::from_owned_bytes`: `String::from_utf8` with a
panic on invalid UTF-8. -/
def stringFromBytes (bs : List Nat) : Except String (List Char) :=
  match utf8Decode bs with
  | some cs => .ok cs
  | none => .error "stored valid utf-8"

/-- Codec of a string newtype (`to_owned_bytes` is
`self.0.as_bytes().to_owned()`). -/
def stringCodec : Codec (List Char) :=
  ⟨utf8Encode, stringFromBytes⟩

/-! ## Key derivation

`ItemStoreImpl` generates
`KEY = concat!(module_path!(), "::", stringify!([<Item:snake _ Inner:snake>]))`;
`MapStoreImpl` generates the same constant as `KEY_PREFIX` plus
`map_key(key) = KEY_PREFIX + "::" + key.into_map_key()`.  The snake-case
renderings produced by `paste!` are taken as the given strings. -/

/-- The singleton `KEY` / map `KEY_PREFIX` constant:
module path, `"::"`, snake-case item name, `"_"`, snake-case inner name. -/
def mkItemKey (modPath itemSnake innerSnake : String) : List Nat :=
  strBytes modPath ++ strBytes "::" ++ strBytes itemSnake ++ [95] ++ strBytes innerSnake

/-- `MapStoreImpl::map_key`: `KEY_PREFIX` then `"::"` then the encoded
Key Value. -/
def mkMapKey (keyPref encodedKey : List Nat) : List Nat :=
  keyPref ++ strBytes "::" ++ encodedKey

/-! ### `IntoMapKey` encodings (`map::IntoMapKey`)

Scalar unsigned integers encode via `to_string` (`natDecimal`);
`String` encodes as itself; a 2-tuple encodes the first component, a
`':'` (byte 58), then the second component; a `MapKeyImpl` newtype
delegates to its inner value. -/

/-- `IntoMapKey for (T1, T2)`: first component's key, `':'`, second
component's key, in declared order. -/
def tupleIntoMapKey {κ1 κ2 : Type} (e1 : κ1 → List Nat) (e2 : κ2 → List Nat)
    (p : κ1 × κ2) : List Nat :=
  e1 p.1 ++ 58 :: e2 p.2

/-! ## Generated capability operations

`item_store_derive_attrs` / `store_map_derive_attrs` expand to these,
parameterised by the binding's codec and derived key. -/

/-- `item::Store::load`: `storage.get(KEY).map(from_owned_bytes)`.
A decode failure is the propagated panic. -/
def itemLoad {α : Type} (c : Codec α) (key : List Nat) (s : Storage) :
    Except String (Option α) :=
  match storageGet s key with
  | none => .ok none
  | some bs => (c.fromBytes bs).map some

/-- `item::Store::save`: `storage.set(KEY, to_owned_bytes)`. -/
def itemSave {α : Type} (c : Codec α) (key : List Nat) (v : α) (s : Storage) :
    Storage :=
  storageSet s key (c.toBytes v)

/-- `item::Clear::clear`: `storage.clear(KEY)`. -/
def itemClear (key : List Nat) (s : Storage) : Storage :=
  storageClear s key

/-- `item::LoadAlways::load_always`:
`Self::load(storage).expect("always present in storage")`. -/
def itemLoadAlways {α : Type} (c : Codec α) (key : List Nat) (s : Storage) :
    Except String α :=
  match itemLoad c key s with
  | .error e => .error e
  | .ok (some v) => .ok v
  | .ok none => .error "always present in storage"

/-- `map::Store::load_at`:
`storage.get(map_key(key)).map(from_owned_bytes)`. -/
def mapLoadAt {α κ : Type} (c : Codec α) (mapKey : κ → List Nat) (s : Storage)
    (k : κ) : Except String (Option α) :=
  match storageGet s (mapKey k) with
  | none => .ok none
  | some bs => (c.fromBytes bs).map some

/-- `map::Store::save_at`: `storage.set(map_key(key), to_owned_bytes)`. -/
def mapSaveAt {α κ : Type} (c : Codec α) (mapKey : κ → List Nat) (v : α)
    (s : Storage) (k : κ) : Storage :=
  storageSet s (mapKey k) (c.toBytes v)

/-- `map::ClearAt::clear_at`: `storage.clear(map_key(key))`. -/
def mapClearAt {κ : Type} (mapKey : κ → List Nat) (s : Storage) (k : κ) :
    Storage :=
  storageClear s (mapKey k)

/-- `map::LoadAlwaysAt::load_always_at`:
`Self::load_at(storage, key).expect("always present in storage")`. -/
def mapLoadAlwaysAt {α κ : Type} (c : Codec α) (mapKey : κ → List Nat)
    (s : Storage) (k : κ) : Except String α :=
  match mapLoadAt c mapKey s k with
  | .error e => .error e
  | .ok (some v) => .ok v
  | .ok none => .error "always present in storage"

/-! ## Declared bindings (tests/it.rs, module `it`)

The integration tests declare:
- `FooUint(u64)`, singleton, always-present (`item_store(always)`);
- `FooNonZero(NonZeroU128)`, singleton, clearable (`item_store(clear)`),
  with `checked_new` and `from_non_zero`;
- `Baz(u16)`, a map-key newtype (`MapKeyImpl`);
- `BarString(String)`, map keyed by `(u32, Baz)`, clearable;
- `FooString(String)`, map keyed by `String`, always-present.

Newtype values are modelled by their wrapped primitive values; the
`From` conversions used by `new`/`checked_new` are value-preserving
widenings, so they are identities here. -/

/-- `FooUint::KEY` (`module_path!()` is `it`; `paste!` renders
`foo_uint_u64`). -/
def fooUintKey : List Nat := mkItemKey "it" "foo_uint" "u64"

def fooUintLoad (s : Storage) : Except String (Option Nat) :=
  itemLoad (uintCodec 8) fooUintKey s

def fooUintSave (v : Nat) (s : Storage) : Storage :=
  itemSave (uintCodec 8) fooUintKey v s

def fooUintLoadAlways (s : Storage) : Except String Nat :=
  itemLoadAlways (uintCodec 8) fooUintKey s

/-- `FooNonZero::KEY` (`paste!` renders `foo_non_zero_non_zero_u128`). -/
def fooNonZeroKey : List Nat := mkItemKey "it" "foo_non_zero" "non_zero_u128"

/-- The `FooNonZero(NonZeroU128)` newtype: wraps exactly one non-zero value. -/
structure FooNonZero where
  nonZeroInner : NonZeroVal

/-- `CheckedNew::checked_new`:
`Self::NonZeroInner::new(Self::PrimitiveInner::from(t)).map(Self)`. -/
def fooNonZeroCheckedNew (t : Nat) : Option FooNonZero :=
  (nonZeroNew t).map FooNonZero.mk

/-- `FromNonZero::from_non_zero`: `Self(Self::NonZeroInner::from(non_zero))`. -/
def fooNonZeroFromNonZero (nz : NonZeroVal) : FooNonZero :=
  FooNonZero.mk nz

/-- `non_zero::Newtype::get`: `self.0.get()`. -/
def FooNonZero.get (x : FooNonZero) : Nat := x.nonZeroInner.val

def fooNonZeroLoad (s : Storage) : Except String (Option NonZeroVal) :=
  itemLoad (nonZeroCodec 16) fooNonZeroKey s

def fooNonZeroSave (v : NonZeroVal) (s : Storage) : Storage :=
  itemSave (nonZeroCodec 16) fooNonZeroKey v s

def fooNonZeroClear (s : Storage) : Storage :=
  itemClear fooNonZeroKey s

/-- `Baz`'s `MapKeyImpl` `into_map_key`: delegates to the inner `u16`'s
`to_string`. -/
def bazIntoMapKey (b : Nat) : List Nat := natDecimal b

/-- `BarString::KEY_PREFIX` (`paste!` renders `bar_string_string`). -/
def barStringKeyPref : List Nat := mkItemKey "it" "bar_string" "string"

/-- `BarString::map_key` over the declared Key Value type `(u32, Baz)`. -/
def barStringMapKey (k : Nat × Nat) : List Nat :=
  mkMapKey barStringKeyPref (tupleIntoMapKey natDecimal bazIntoMapKey k)

def barStringLoadAt (s : Storage) (k : Nat × Nat) : Except String (Option (List Char)) :=
  mapLoadAt stringCodec barStringMapKey s k

def barStringSaveAt (v : List Char) (s : Storage) (k : Nat × Nat) : Storage :=
  mapSaveAt stringCodec barStringMapKey v s k

def barStringClearAt (s : Storage) (k : Nat × Nat) : Storage :=
  mapClearAt barStringMapKey s k

/-- `FooString::KEY_PREFIX` (`paste!` renders `foo_string_string`). -/
def fooStringKeyPref : List Nat := mkItemKey "it" "foo_string" "string"

/-- `FooString::map_key` over the declared Key Value type `String`
(whose `into_map_key` is the identity). -/
def fooStringMapKey (k : List Char) : List Nat :=
  mkMapKey fooStringKeyPref (utf8Encode k)

def fooStringSaveAt (v : List Char) (s : Storage) (k : List Char) : Storage :=
  mapSaveAt stringCodec fooStringMapKey v s k

def fooStringLoadAlwaysAt (s : Storage) (k : List Char) : Except String (List Char) :=
  mapLoadAlwaysAt stringCodec fooStringMapKey s k

/-! ## Declaration-time capability configuration

`item_store_derive_attrs` has one arm per recognised attribute: the
`always` arm and the `clear` arm each emit an implementation of the
marker trait `item::ClearOrLoadAlways` for the declared type (any other
attribute emits nothing); `store_map_derive_attrs` likewise emits
`map::ClearAtOrLoadAlwaysAt` from its `always` and `clear` arms, and
nothing from its `key` arm. -/

/-- The attributes a singleton (`ItemStoreImpl`) declaration can carry. -/
inductive ItemStoreAttr
  | always
  | clear
  | other
deriving DecidableEq

/-- Whether an attribute's macro arm emits an impl of the marker trait
`item::ClearOrLoadAlways` (src: `item_store_derive_attrs`). -/
def itemEmitsMarker : ItemStoreAttr → Bool
  | .always => true
  | .clear => true
  | .other => false

/-- Modelled from the spec: the declarative binding mechanism rejects a
declaration at declaration time when it would configure both
always-present and clearable.  In the source this is Rust impl
coherence: both macro arms emit an impl of the one marker trait
`ClearOrLoadAlways` for the same type, and duplicate impls do not
compile, so no operation of the binding ever exists.  Acceptance is a
pure function of the attribute list — no storage is involved. -/
def itemDeclAccepted (attrs : List ItemStoreAttr) : Bool :=
  (attrs.filter itemEmitsMarker).length ≤ 1

/-- The attributes a map (`MapStoreImpl`) declaration can carry. -/
inductive MapStoreAttr
  | key
  | always
  | clear
  | other
deriving DecidableEq

/-- Whether an attribute's macro arm emits an impl of the marker trait
`map::ClearAtOrLoadAlwaysAt` (src: `store_map_derive_attrs`). -/
def mapEmitsMarker : MapStoreAttr → Bool
  | .key => false
  | .always => true
  | .clear => true
  | .other => false

/-- Modelled from the spec: declaration-time acceptance for map
bindings, as for `itemDeclAccepted`. -/
def mapDeclAccepted (attrs : List MapStoreAttr) : Bool :=
  (attrs.filter mapEmitsMarker).length ≤ 1

/-! ## Helper lemmas -/

/-- `58 ∉ natDecimal n`: a decimal encoding never contains the `':'`
separator byte. -/
theorem natDecimal_no_colon (n : Nat) : 58 ∉ natDecimal n := by
  intro h
  have := natDecimal_mem n 58 h
  omega

/-- Splitting a separated concatenation at a separator that occurs in
neither left part. -/
theorem append_sep_inj {sep : Nat} {xs1 : List Nat} :
    ∀ {xs2 ys1 ys2 : List Nat}, sep ∉ xs1 → sep ∉ xs2 →
      xs1 ++ sep :: ys1 = xs2 ++ sep :: ys2 → xs1 = xs2 ∧ ys1 = ys2 := by
  induction xs1 with
  | nil =>
    intro xs2 ys1 ys2 _ h2 h
    cases xs2 with
    | nil => simpa using h
    | cons x xs =>
      simp only [List.nil_append, List.cons_append, List.cons.injEq] at h
      exact absurd (h.1 ▸ List.mem_cons_self x xs) (by simpa [← h.1] using h2)
  | cons x xs ih =>
    intro xs2 ys1 ys2 h1 h2 h
    cases xs2 with
    | nil =>
      simp only [List.cons_append, List.nil_append, List.cons.injEq] at h
      exact absurd (h.1 ▸ List.mem_cons_self x xs) (by simpa [h.1] using h1)
    | cons y ys =>
      simp only [List.cons_append, List.cons.injEq] at h
      obtain ⟨hxy, ht⟩ := h
      have h1' : sep ∉ xs := fun hm => h1 (List.mem_cons_of_mem _ hm)
      have h2' : sep ∉ ys := fun hm => h2 (List.mem_cons_of_mem _ hm)
      obtain ⟨hx, hy⟩ := ih h1' h2' ht
      exact ⟨by rw [hxy, hx], hy⟩

/-- UTF-8 encoding is injective (it has a decoder). -/
theorem utf8Encode_inj {cs1 cs2 : List Char} (h : utf8Encode cs1 = utf8Encode cs2) :
    cs1 = cs2 := by
  have h1 := utf8Decode_utf8Encode cs1
  rw [h, utf8Decode_utf8Encode cs2] at h1
  exact (Option.some.inj h1).symm

/-- A fixed prefix cancels: equal full map keys have equal encoded Key
Values. -/
theorem mkMapKey_inj {p e1 e2 : List Nat} (h : mkMapKey p e1 = mkMapKey p e2) :
    e1 = e2 := by
  rw [mkMapKey, mkMapKey] at h
  exact List.append_cancel_left h

/-- The `(u32, Baz)` tuple encoding is injective: decimal components
never contain the separator. -/
theorem tuple_u32_baz_inj {k1 k2 : Nat × Nat}
    (h : tupleIntoMapKey natDecimal bazIntoMapKey k1
        = tupleIntoMapKey natDecimal bazIntoMapKey k2) : k1 = k2 := by
  rw [tupleIntoMapKey, tupleIntoMapKey, bazIntoMapKey, bazIntoMapKey] at h
  obtain ⟨ha, hb⟩ :=
    append_sep_inj (natDecimal_no_colon k1.1) (natDecimal_no_colon k2.1) h
  exact Prod.ext (natDecimal_inj ha) (natDecimal_inj hb)

/-- A list containing two distinct elements has length at least two. -/
theorem two_le_length_of_mem {α : Type} {a b : α} {l : List α}
    (ha : a ∈ l) (hb : b ∈ l) (hab : a ≠ b) : 2 ≤ l.length := by
  cases l with
  | nil => simp at ha
  | cons x xs =>
    have hx : a ∈ xs ∨ b ∈ xs := by
      rcases List.mem_cons.mp ha with rfl | h
      · rcases List.mem_cons.mp hb with rfl | h
        · exact absurd rfl hab
        · exact Or.inr h
      · exact Or.inl h
    have hne : xs ≠ [] := by
      rcases hx with h | h <;> exact List.ne_nil_of_mem h
    have := List.length_pos.mpr hne
    simp only [List.length_cons]
    omega

/-! ## Claims -/

/-- C1: Map-binding key derivation is deterministic and injective over
the declared map-bound types (`BarString` keyed by `(u32, Baz)` and
`FooString` keyed by `String`): the same Key Value always derives the
same key, distinct Key Values of one type derive distinct keys, and the
two distinct types never derive a common key for any Key Values. -/
theorem C1_map_key_deterministic_injective :
    (∀ k : Nat × Nat, barStringMapKey k = barStringMapKey k)
    ∧ (∀ k : List Char, fooStringMapKey k = fooStringMapKey k)
    ∧ (∀ k1 k2 : Nat × Nat, k1 ≠ k2 → barStringMapKey k1 ≠ barStringMapKey k2)
    ∧ (∀ k1 k2 : List Char, k1 ≠ k2 → fooStringMapKey k1 ≠ fooStringMapKey k2)
    ∧ (∀ (k1 : Nat × Nat) (k2 : List Char), barStringMapKey k1 ≠ fooStringMapKey k2) := by
  refine ⟨fun _ => rfl, fun _ => rfl, ?_, ?_, ?_⟩
  · intro k1 k2 hne h
    exact hne (tuple_u32_baz_inj (mkMapKey_inj h))
  · intro k1 k2 hne h
    exact hne (utf8Encode_inj (mkMapKey_inj h))
  · intro k1 k2 h
    have h4 : (barStringMapKey k1)[4]? = (fooStringMapKey k2)[4]? := by rw [h]
    rw [barStringMapKey, fooStringMapKey, mkMapKey, mkMapKey] at h4
    rw [List.getElem?_append_left
      (show 4 < (barStringKeyPref ++ strBytes "::").length by decide)] at h4
    rw [List.getElem?_append_left
      (show 4 < (fooStringKeyPref ++ strBytes "::").length by decide)] at h4
    exact absurd h4 (by decide)

/-- Witness for C1 at concrete Key Values. -/
theorem C1_witness :
    barStringMapKey (0, 1) ≠ barStringMapKey (0, 2)
    ∧ fooStringMapKey [Char.ofNat 97] ≠ fooStringMapKey [Char.ofNat 98]
    ∧ barStringMapKey (0, 1) ≠ fooStringMapKey [Char.ofNat 97] :=
  ⟨C1_map_key_deterministic_injective.2.2.1 (0, 1) (0, 2) (by decide),
   C1_map_key_deterministic_injective.2.2.2.1 [Char.ofNat 97] [Char.ofNat 98] (by decide),
   C1_map_key_deterministic_injective.2.2.2.2 (0, 1) [Char.ofNat 97]⟩

/-- C5: a tuple Key Value encodes each component independently and
concatenates the encodings with the `':'` separator (byte 58) in
declared order; `(0u32, Baz(1))` yields the key suffix `"0:1"`, and
`BarString`'s full derived key for it is
`"it::bar_string_string::0:1"`. -/
theorem C5_tuple_key_composition :
    (∀ k : Nat × Nat, tupleIntoMapKey natDecimal bazIntoMapKey k
        = natDecimal k.1 ++ 58 :: bazIntoMapKey k.2)
    ∧ tupleIntoMapKey natDecimal bazIntoMapKey (0, 1) = strBytes "0:1"
    ∧ barStringMapKey (0, 1) = strBytes "it::bar_string_string::0:1" := by
  have h0 : natDecimal 0 = [48] := by simp [natDecimal]
  have h1 : natDecimal 1 = [49] := by simp [natDecimal, decDigits]
  refine ⟨fun _ => rfl, ?_, ?_⟩
  · show natDecimal 0 ++ 58 :: natDecimal 1 = strBytes "0:1"
    rw [h0, h1]
    decide
  · show mkMapKey barStringKeyPref (natDecimal 0 ++ 58 :: natDecimal 1)
        = strBytes "it::bar_string_string::0:1"
    rw [h0, h1]
    decide

/-- C3: byte-codec round trip: for every valid wrapped value of each
newtype kind — any unsigned integer that fits the declared width
(including 0) for Uint, any nonzero such integer for NonZeroUint, any
UTF-8 string for String — `from_owned_bytes (to_owned_bytes v)` reaches
no internal-consistency failure (no `.error`) and returns `v`. -/
theorem C3_codec_round_trip :
    (∀ w v : Nat, v < 256 ^ w →
      (uintCodec w).fromBytes ((uintCodec w).toBytes v) = .ok v)
    ∧ (∀ (w : Nat) (v : NonZeroVal), v.val < 256 ^ w →
      (nonZeroCodec w).fromBytes ((nonZeroCodec w).toBytes v) = .ok v)
    ∧ (∀ cs : List Char, stringCodec.fromBytes (stringCodec.toBytes cs) = .ok cs) := by
  refine ⟨?_, ?_, ?_⟩
  · intro w v h
    show uintFromBytes w (toBEBytes w v) = .ok v
    rw [uintFromBytes, if_pos (toBEBytes_length w v), fromBEBytes_toBEBytes w v h]
  · intro w v h
    show nonZeroFromBytes w (toBEBytes w v.val) = .ok v
    rw [nonZeroFromBytes, if_pos (toBEBytes_length w v.val),
      fromBEBytes_toBEBytes w v.val h, nonZeroNew, dif_neg v.2]
    rfl
  · intro cs
    show stringFromBytes (utf8Encode cs) = .ok cs
    rw [stringFromBytes, utf8Decode_utf8Encode]

/-- Witness for C3 at concrete values: 19 as a u64, 19 as a NonZeroU128,
and the string "hi". -/
theorem C3_witness :
    (uintCodec 8).fromBytes ((uintCodec 8).toBytes 19) = .ok 19
    ∧ (nonZeroCodec 16).fromBytes ((nonZeroCodec 16).toBytes ⟨19, by omega⟩)
        = .ok ⟨19, by omega⟩
    ∧ stringCodec.fromBytes (stringCodec.toBytes [Char.ofNat 104, Char.ofNat 105])
        = .ok [Char.ofNat 104, Char.ofNat 105] :=
  ⟨C3_codec_round_trip.1 8 19 (by decide),
   C3_codec_round_trip.2.1 16 ⟨19, by omega⟩ (by decide),
   C3_codec_round_trip.2.2 [Char.ofNat 104, Char.ofNat 105]⟩

/-- C4: for an always-present binding (singleton or map), `load_always`
(`load_always_at`) returns exactly what `load` (`load_at`) returns when
that is a present value, and when `load` returns absent it is the
propagated panic `"always present in storage"` — an `.error`, never a
silent default. -/
theorem C4_load_always_delegates {α κ : Type} (c : Codec α) (key : List Nat)
    (mk : κ → List Nat) :
    (∀ (s : Storage) (v : α), itemLoad c key s = .ok (some v) →
      itemLoadAlways c key s = .ok v)
    ∧ (∀ s : Storage, itemLoad c key s = .ok none →
      itemLoadAlways c key s = .error "always present in storage")
    ∧ (∀ (s : Storage) (k : κ) (v : α), mapLoadAt c mk s k = .ok (some v) →
      mapLoadAlwaysAt c mk s k = .ok v)
    ∧ (∀ (s : Storage) (k : κ), mapLoadAt c mk s k = .ok none →
      mapLoadAlwaysAt c mk s k = .error "always present in storage") := by
  refine ⟨?_, ?_, ?_, ?_⟩
  · intro s v h
    rw [itemLoadAlways, h]
  · intro s h
    rw [itemLoadAlways, h]
  · intro s k v h
    rw [mapLoadAlwaysAt, h]
  · intro s k h
    rw [mapLoadAlwaysAt, h]

/-- Witness for C4: `FooUint` after saving 19, and on empty storage. -/
theorem C4_witness :
    itemLoadAlways (uintCodec 8) fooUintKey
        (itemSave (uintCodec 8) fooUintKey 19 emptyStorage) = .ok 19
    ∧ itemLoadAlways (uintCodec 8) fooUintKey emptyStorage
        = .error "always present in storage"
    ∧ mapLoadAlwaysAt (uintCodec 8) bazIntoMapKey
        (fun _ => some (toBEBytes 8 19)) 1 = .ok 19
    ∧ mapLoadAlwaysAt (uintCodec 8) bazIntoMapKey emptyStorage 1
        = .error "always present in storage" :=
  ⟨(C4_load_always_delegates (uintCodec 8) fooUintKey bazIntoMapKey).1 _ 19 rfl,
   (C4_load_always_delegates (uintCodec 8) fooUintKey bazIntoMapKey).2.1 _ rfl,
   (C4_load_always_delegates (uintCodec 8) fooUintKey bazIntoMapKey).2.2.1 _ 1 19 rfl,
   (C4_load_always_delegates (uintCodec 8) fooUintKey bazIntoMapKey).2.2.2 _ 1 rfl⟩

/-- C6: baseline load/save semantics, for any binding (any codec and
derived key, singleton or map): `load` (`load_at`) is `.ok none` exactly
when the storage holds no bytes at the derived key and otherwise
decodes the stored bytes; `save` (`save_at`) always overwrites — a load
after a save of `v` returns `v` (for a value its codec round-trips)
whatever was stored before. -/
theorem C6_baseline_load_save {α κ : Type} (c : Codec α) (key : List Nat)
    (mk : κ → List Nat) :
    (∀ s : Storage, itemLoad c key s = .ok none ↔ s key = none)
    ∧ (∀ (s : Storage) (bs : List Nat), s key = some bs →
        itemLoad c key s = (c.fromBytes bs).map some)
    ∧ (∀ (s : Storage) (v : α), c.fromBytes (c.toBytes v) = .ok v →
        itemLoad c key (itemSave c key v s) = .ok (some v))
    ∧ (∀ (s : Storage) (k : κ), mapLoadAt c mk s k = .ok none ↔ s (mk k) = none)
    ∧ (∀ (s : Storage) (k : κ) (bs : List Nat), s (mk k) = some bs →
        mapLoadAt c mk s k = (c.fromBytes bs).map some)
    ∧ (∀ (s : Storage) (v : α) (k : κ), c.fromBytes (c.toBytes v) = .ok v →
        mapLoadAt c mk (mapSaveAt c mk v s k) k = .ok (some v)) := by
  refine ⟨?_, ?_, ?_, ?_, ?_, ?_⟩
  · intro s
    rw [itemLoad, storageGet]
    cases hsk : s key with
    | none => simp
    | some bs =>
      cases hfb : c.fromBytes bs <;> simp [hfb, Except.map]
  · intro s bs h
    rw [itemLoad, storageGet, h]
  · intro s v h
    rw [itemLoad, itemSave, storageGet, storageSet]
    simp only [if_pos]
    rw [h]
    rfl
  · intro s k
    rw [mapLoadAt, storageGet]
    cases hsk : s (mk k) with
    | none => simp
    | some bs =>
      cases hfb : c.fromBytes bs <;> simp [hfb, Except.map]
  · intro s k bs h
    rw [mapLoadAt, storageGet, h]
  · intro s v k h
    rw [mapLoadAt, mapSaveAt, storageGet, storageSet]
    simp only [if_pos]
    rw [h]
    rfl

/-- Witness for C6: `u64` values through singleton and map bindings. -/
theorem C6_witness :
    itemLoad (uintCodec 8) fooUintKey (fun _ => some (toBEBytes 8 19))
        = ((uintCodec 8).fromBytes (toBEBytes 8 19)).map some
    ∧ itemLoad (uintCodec 8) fooUintKey
        (itemSave (uintCodec 8) fooUintKey 19 emptyStorage) = .ok (some 19)
    ∧ mapLoadAt (uintCodec 8) bazIntoMapKey (fun _ => some (toBEBytes 8 19)) 1
        = ((uintCodec 8).fromBytes (toBEBytes 8 19)).map some
    ∧ mapLoadAt (uintCodec 8) bazIntoMapKey
        (mapSaveAt (uintCodec 8) bazIntoMapKey 19 emptyStorage 1) 1 = .ok (some 19) :=
  ⟨(C6_baseline_load_save (uintCodec 8) fooUintKey bazIntoMapKey).2.1 _ _ rfl,
   (C6_baseline_load_save (uintCodec 8) fooUintKey bazIntoMapKey).2.2.1
      emptyStorage 19 rfl,
   (C6_baseline_load_save (uintCodec 8) fooUintKey bazIntoMapKey).2.2.2.2.1 _ 1 _ rfl,
   (C6_baseline_load_save (uintCodec 8) fooUintKey bazIntoMapKey).2.2.2.2.2
      emptyStorage 19 1 rfl⟩

/-- C7: clear semantics and idempotence, for any binding: after
`clear` (`clear_at` with key `k`) the derived key holds nothing, so a
subsequent `load` (`load_at k`) is `.ok none`; clearing twice leaves
exactly the state of clearing once (the port's erase is idempotent on
absent keys). -/
theorem C7_clear_semantics {α κ : Type} (c : Codec α) (key : List Nat)
    (mk : κ → List Nat) :
    (∀ s : Storage, itemLoad c key (itemClear key s) = .ok none)
    ∧ (∀ s : Storage, itemClear key (itemClear key s) = itemClear key s)
    ∧ (∀ (s : Storage) (k : κ), mapLoadAt c mk (mapClearAt mk s k) k = .ok none)
    ∧ (∀ (s : Storage) (k : κ), mapClearAt mk (mapClearAt mk s k) k = mapClearAt mk s k) := by
  refine ⟨?_, ?_, ?_, ?_⟩
  · intro s
    rw [itemLoad, itemClear, storageGet, storageClear]
    simp
  · intro s
    funext k'
    rw [itemClear, itemClear, storageClear]
    by_cases hk : k' = key <;> simp [storageClear, hk]
  · intro s k
    rw [mapLoadAt, mapClearAt, storageGet, storageClear]
    simp
  · intro s k
    funext k'
    rw [mapClearAt, mapClearAt, storageClear]
    by_cases hk : k' = mk k <;> simp [storageClear, hk]

/-- Witness for C7: clearing `FooNonZero`'s singleton slot. -/
theorem C7_witness :
    itemLoad (nonZeroCodec 16) fooNonZeroKey
        (itemClear fooNonZeroKey
          (itemSave (nonZeroCodec 16) fooNonZeroKey ⟨19, by omega⟩ emptyStorage))
      = .ok none
    ∧ itemClear fooNonZeroKey (itemClear fooNonZeroKey emptyStorage)
        = itemClear fooNonZeroKey emptyStorage :=
  ⟨(C7_clear_semantics (nonZeroCodec 16) fooNonZeroKey bazIntoMapKey).1 _,
   (C7_clear_semantics (nonZeroCodec 16) fooNonZeroKey bazIntoMapKey).2.1 emptyStorage⟩

/-- C9: the singleton derived key is the constant
`"{namespace}::{type_name}_{primitive_kind}"` — for `FooUint(u64)` in
module `it`, the bytes of `"it::foo_uint_u64"` — and `save`/`load` use
that constant for every wrapped value, so all instances share one
key. -/
theorem C9_singleton_key_constant :
    fooUintKey = strBytes "it::foo_uint_u64"
    ∧ (∀ (v : Nat) (s : Storage),
        fooUintSave v s = storageSet s fooUintKey (toBEBytes 8 v))
    ∧ (∀ s : Storage, fooUintLoad s
        = match s fooUintKey with
          | none => .ok none
          | some bs => (uintFromBytes 8 bs).map some)
    ∧ fooNonZeroKey = strBytes "it::foo_non_zero_non_zero_u128" := by
  refine ⟨by decide, fun _ _ => rfl, fun _ => rfl, by decide⟩

/-- C10 (frame effect): `save`/`save_at` writes the encoded value at the
binding's derived key and leaves every other key's bytes unchanged;
`clear`/`clear_at` erases at most the derived key and leaves every other
key unchanged.  (`load`/`load_at` take the storage only as a read-only
argument and return no storage, mirroring `&dyn ReadonlyStorage` — they
cannot modify it.) -/
theorem C10_frame_effect {α κ : Type} (c : Codec α) (key : List Nat)
    (mk : κ → List Nat) :
    (∀ (s : Storage) (v : α), itemSave c key v s key = some (c.toBytes v))
    ∧ (∀ (s : Storage) (v : α) (k' : List Nat), k' ≠ key →
        itemSave c key v s k' = s k')
    ∧ (∀ (s : Storage) (k' : List Nat), k' ≠ key → itemClear key s k' = s k')
    ∧ (∀ (s : Storage) (v : α) (k : κ),
        mapSaveAt c mk v s k (mk k) = some (c.toBytes v))
    ∧ (∀ (s : Storage) (v : α) (k : κ) (k' : List Nat), k' ≠ mk k →
        mapSaveAt c mk v s k k' = s k')
    ∧ (∀ (s : Storage) (k : κ) (k' : List Nat), k' ≠ mk k →
        mapClearAt mk s k k' = s k') := by
  refine ⟨?_, ?_, ?_, ?_, ?_, ?_⟩
  · intro s v
    rw [itemSave, storageSet]
    simp
  · intro s v k' h
    rw [itemSave, storageSet]
    simp [h]
  · intro s k' h
    rw [itemClear, storageClear]
    simp [h]
  · intro s v k
    rw [mapSaveAt, storageSet]
    simp
  · intro s v k k' h
    rw [mapSaveAt, storageSet]
    simp [h]
  · intro s k k' h
    rw [mapClearAt, storageClear]
    simp [h]

/-- Witness for C10: a save at `FooUint`'s key leaves the empty byte key
untouched. -/
theorem C10_witness :
    itemSave (uintCodec 8) fooUintKey 19 emptyStorage fooUintKey
        = some (toBEBytes 8 19)
    ∧ itemSave (uintCodec 8) fooUintKey 19 emptyStorage [] = emptyStorage []
    ∧ itemClear fooUintKey emptyStorage [] = emptyStorage [] :=
  ⟨(C10_frame_effect (uintCodec 8) fooUintKey bazIntoMapKey).1 emptyStorage 19,
   (C10_frame_effect (uintCodec 8) fooUintKey bazIntoMapKey).2.1
      emptyStorage 19 [] (by decide),
   (C10_frame_effect (uintCodec 8) fooUintKey bazIntoMapKey).2.2.1
      emptyStorage [] (by decide)⟩

/-- C8: `checked_new t` is absent exactly when `t` converts to zero and
otherwise wraps `t`; `from_non_zero` on an already-nonzero input always
succeeds and wraps that value. -/
theorem C8_non_zero_constructors :
    (∀ t : Nat, fooNonZeroCheckedNew t = none ↔ t = 0)
    ∧ (∀ t : Nat, t ≠ 0 →
        (fooNonZeroCheckedNew t).map FooNonZero.get = some t)
    ∧ (∀ nz : NonZeroVal, (fooNonZeroFromNonZero nz).get = nz.val) := by
  refine ⟨?_, ?_, fun _ => rfl⟩
  · intro t
    rw [fooNonZeroCheckedNew, nonZeroNew]
    by_cases h : t = 0 <;> simp [h]
  · intro t h
    rw [fooNonZeroCheckedNew, nonZeroNew, dif_neg h]
    rfl

/-- Witness for C8: `checked_new(19)` is present and wraps 19;
`checked_new(0)` is absent; `from_non_zero(19)` wraps 19. -/
theorem C8_witness :
    fooNonZeroCheckedNew 0 = none
    ∧ (fooNonZeroCheckedNew 19).map FooNonZero.get = some 19
    ∧ (fooNonZeroFromNonZero ⟨19, by omega⟩).get = 19 :=
  ⟨(C8_non_zero_constructors.1 0).mpr rfl,
   C8_non_zero_constructors.2.1 19 (by omega),
   C8_non_zero_constructors.2.2 ⟨19, by omega⟩⟩

/-- C2: a declaration carrying both the always-present and the clearable
attribute would emit two impls of the one marker trait and is rejected
at declaration time — acceptance is decided from the attribute list
alone, before any operation or storage call exists — and an accepted
declaration carries at most one of the two capabilities. -/
theorem C2_mutual_exclusion :
    itemDeclAccepted [ItemStoreAttr.always, ItemStoreAttr.clear] = false
    ∧ (∀ attrs : List ItemStoreAttr, itemDeclAccepted attrs = true →
        ¬(ItemStoreAttr.always ∈ attrs ∧ ItemStoreAttr.clear ∈ attrs))
    ∧ mapDeclAccepted [MapStoreAttr.key, MapStoreAttr.always, MapStoreAttr.clear] = false
    ∧ (∀ attrs : List MapStoreAttr, mapDeclAccepted attrs = true →
        ¬(MapStoreAttr.always ∈ attrs ∧ MapStoreAttr.clear ∈ attrs)) := by
  refine ⟨by decide, ?_, by decide, ?_⟩
  · intro attrs hacc ⟨ha, hc⟩
    have hfa : ItemStoreAttr.always ∈ attrs.filter itemEmitsMarker :=
      List.mem_filter.mpr ⟨ha, rfl⟩
    have hfc : ItemStoreAttr.clear ∈ attrs.filter itemEmitsMarker :=
      List.mem_filter.mpr ⟨hc, rfl⟩
    have h2 := two_le_length_of_mem hfa hfc (by decide)
    rw [itemDeclAccepted] at hacc
    simp only [decide_eq_true_eq] at hacc
    omega
  · intro attrs hacc ⟨ha, hc⟩
    have hfa : MapStoreAttr.always ∈ attrs.filter mapEmitsMarker :=
      List.mem_filter.mpr ⟨ha, rfl⟩
    have hfc : MapStoreAttr.clear ∈ attrs.filter mapEmitsMarker :=
      List.mem_filter.mpr ⟨hc, rfl⟩
    have h2 := two_le_length_of_mem hfa hfc (by decide)
    rw [mapDeclAccepted] at hacc
    simp only [decide_eq_true_eq] at hacc
    omega

/-- Witness for C2: the accepted single-capability declarations carry at
most one of the two. -/
theorem C2_witness :
    ¬(ItemStoreAttr.always ∈ [ItemStoreAttr.always]
      ∧ ItemStoreAttr.clear ∈ [ItemStoreAttr.always])
    ∧ ¬(MapStoreAttr.always ∈ [MapStoreAttr.key, MapStoreAttr.clear]
      ∧ MapStoreAttr.clear ∈ [MapStoreAttr.key, MapStoreAttr.clear]) :=
  ⟨C2_mutual_exclusion.2.1 [ItemStoreAttr.always] (by decide),
   C2_mutual_exclusion.2.2.2 [MapStoreAttr.key, MapStoreAttr.clear] (by decide)⟩

end NewtypeMacros
